import Mathlib

/-!
Verification development for the vivarium component assembly subsystem
(`vivarium/framework/components.py`).

The development shallowly embeds the pieces of the subsystem that the
verified properties are about:

* `ComponentManager.setup_components` — the FIFO-worklist setup pass —
  is embedded as `stepOne` / `runSetup` / `setupComponents` over a heap
  of Python objects (`Obj`, addressed by natural-number identities).
* `_parse_component` (descriptor parsing and argument resolution) is
  embedded as `transformArgs` / `parseComponent` over AST argument
  nodes (`ArgNode`), taking the node list produced by the host parser
  as input.
* `_extract_component_list` is embedded as the mutually recursive
  `processLevel` / `processNode` / `processDict` over the nested
  grouping structure `CList` / `CNode` / `CDict`.
* `ComponentManager.load_components_from_config` together with
  `_prep_components` is embedded, at the granularity of its observable
  configuration-write and invocation events, as `prepComponents` /
  `invokeLoop` / `loadComponentsFromConfig`.
-/

set_option autoImplicit false

namespace Vivarium

/-! ## Heap model of Python component objects

A component object is addressed by a natural-number identity (its `id`
in Python).  `eqKey` models the object's equality class: two objects
compare `==` exactly when their `eqKey`s agree; an object whose class
does not override `__eq__` has `eqKey` equal to its own identity.
`iterElems = some elems` models `isinstance(component, Iterable)`
holding, with `elems` the sequence the object yields.  `setupReturns`
models the value returned by the object's `setup` method (the empty
list doubles for Python's falsy `None` return, which the source treats
identically via `if sub_components:`). -/
structure Obj where
  eqKey : Nat
  iterElems : Option (List (Option Nat))
  hasDefaults : Bool
  hasSetup : Bool
  setupReturns : List (Option Nat)

/-- The heap: object identities to objects.  `Option Nat` entries in
worklists are `none` for Python `None` and `some i` for the object at
identity `i`. -/
def Env : Type := Nat → Obj

/-- Python `a == b` for two heap objects: equality-class comparison. -/
def pyEq (env : Env) (a b : Nat) : Bool :=
  (env a).eqKey == (env b).eqKey

/-- Python `c in done` for a list of objects: `any(c is e or c == e)`.
The identity disjunct `c == e` on the addresses mirrors `c is e`. -/
def pyIn (env : Env) (c : Nat) (l : List Nat) : Bool :=
  l.any (fun e => c == e || pyEq env c e)

/-- State of `ComponentManager.setup_components`, instrumented with
event logs.  `selfComponents` is `self.components`; `done` is the local
`done` list; `setupLog` records the order of `component.setup(builder)`
invocations; `configLog` records the sources passed to
`config.read_dict(..., layer='component_configs', source=component)`
during the pass; `deqLog` records worklist entries in dequeue
(`pop(0)`) order and `enqLog` in enqueue order (initial seeding plus
every `components.extend`). -/
structure SState where
  selfComponents : List (Option Nat)
  done : List Nat
  setupLog : List Nat
  configLog : List Nat
  deqLog : List (Option Nat)
  enqLog : List (Option Nat)
  deriving DecidableEq, Repr

/-- Elements contributed to the worklist by the
`isinstance(component, Iterable)` branch: the object's elements when it
is iterable, nothing otherwise. -/
def iterApp (env : Env) (c : Nat) : List (Option Nat) :=
  match (env c).iterElems with
  | some elems => elems
  | Option.none => []

/-- Exit status of the setup pass: normal completion, the
`ComponentConfigError` raised on a `None` worklist entry, or fuel
exhaustion (the source can loop forever, e.g. on a self-containing
iterable; `fuelOut` marks runs that were cut off). -/
inductive Outcome where
  | ok : Outcome
  | err (msg : String) : Outcome
  | fuelOut : Outcome
  deriving DecidableEq, Repr

/-- The message of the `ComponentConfigError` raised on a `None`
worklist entry. -/
def noneMsg : String :=
  "None in component list. This likely indicates a bug in a factory function"

/-- One iteration of the `while components:` loop body for an already
dequeued, non-`None` component `c`: the `Iterable` splice (note the
source has no `continue`, so the component falls through to the `done`
check), the `configuration_defaults` merge, and the `setup` call with
absorption of returned sub-components.  Returns the new state and the
list of entries appended to the worklist. -/
def stepOne (env : Env) (c : Nat) (st : SState) : SState × List (Option Nat) :=
  let st₁ := { st with selfComponents := st.selfComponents ++ iterApp env c }
  if pyIn env c st₁.done then (st₁, iterApp env c)
  else
    let st₂ :=
      if (env c).hasDefaults then { st₁ with configLog := st₁.configLog ++ [c] } else st₁
    if (env c).hasSetup then
      let st₃ := { st₂ with setupLog := st₂.setupLog ++ [c], done := st₂.done ++ [c] }
      if (env c).setupReturns.isEmpty then (st₃, iterApp env c)
      else
        ({ st₃ with selfComponents := st₃.selfComponents ++ (env c).setupReturns },
          iterApp env c ++ (env c).setupReturns)
    else (st₂, iterApp env c)

/-- The `while components:` loop of `setup_components`, with explicit
fuel.  Dequeues the front entry, raises on `None`, otherwise runs
`stepOne` and appends the produced entries to the back of the
worklist. -/
def runSetup (env : Env) : Nat → List (Option Nat) → SState → SState × Outcome
  | _, [], st => (st, Outcome.ok)
  | 0, _ :: _, st => (st, Outcome.fuelOut)
  | Nat.succ f, e :: rest, st =>
    match e with
    | Option.none =>
        ({ st with deqLog := st.deqLog ++ [Option.none] }, Outcome.err noneMsg)
    | some c =>
        let st₀ := { st with deqLog := st.deqLog ++ [some c] }
        let p := stepOne env c st₀
        runSetup env f (rest ++ p.2) { p.1 with enqLog := p.1.enqLog ++ p.2 }

/-- The state at entry to `setup_components`: the worklist is seeded
from `self.components` (`components = list(self.components)`), the
`done` list is a fresh local, and all logs are empty. -/
def initState (mgr : List (Option Nat)) : SState :=
  { selfComponents := mgr, done := [], setupLog := [], configLog := [],
    deqLog := [], enqLog := mgr }

/-- `ComponentManager.setup_components` on a manager whose
`self.components` is `mgr`. -/
def setupComponents (env : Env) (fuel : Nat) (mgr : List (Option Nat)) :
    SState × Outcome :=
  runSetup env fuel mgr (initState mgr)

/-- One full dequeue-and-process round for a non-`None` entry, as
performed by `runSetup`: log the dequeue, run `stepOne`, log the
enqueues. -/
def processOne (env : Env) (st : SState) (c : Nat) : SState :=
  let st₀ := { st with deqLog := st.deqLog ++ [some c] }
  let p := stepOne env c st₀
  { p.1 with enqLog := p.1.enqLog ++ p.2 }

/-! ## Descriptor parsing (`_parse_component`)

The host language's parser (`ast.parse`) is outside the embedding; we
take as input the list of argument AST nodes of the single component
call, exactly what `_extract_component_call` hands to the argument
loop of `_parse_component`. -/

/-- Concrete Python values produced by argument resolution. -/
inductive Val where
  | str (s : String) : Val
  | int (n : Int) : Val
  | bool (b : Bool) : Val
  | noneV : Val
  | list (l : List Val) : Val

/-- An argument AST node, classified the way `_parse_component` probes
it: `strLit` is an `ast.Str` node (a string literal, hence also a
literal); `lit` is any other node on which `ast.literal_eval` succeeds
with value `v` (so `_is_literal` is true); `call` is an `ast.Call` with
a plain-name callee and the given argument nodes (not a literal);
`other` is any remaining node — not a literal and not a call (e.g. a
bare `ast.Name` or an `ast.Attribute`). -/
inductive ArgNode where
  | strLit (s : String) : ArgNode
  | lit (v : Val) : ArgNode
  | call (ctor : String) (args : List ArgNode) : ArgNode
  | other : ArgNode

/-- The callee AST of the component call: an `ast.Name` or a chain of
`ast.Attribute` accesses. -/
inductive FuncNode where
  | name (id : String) : FuncNode
  | attr (value : FuncNode) (field : String) : FuncNode
  deriving DecidableEq, Repr

/-- `_component_ast_to_path`: flatten the callee AST into a dotted
path. -/
def componentAstToPath : FuncNode → String
  | FuncNode.name i => i
  | FuncNode.attr v a => componentAstToPath v ++ "." ++ a

/-- `constructors.get(name)` on the registry (an association list of
named host constructors, each taking one string). -/
def lookupCtor (ctors : List (String × (String → Val))) (n : String) :
    Option (String → Val) :=
  match ctors with
  | [] => Option.none
  | (k, f) :: rest => if k = n then some f else lookupCtor rest n

/-- The `for arg in args:` loop of `_parse_component`.  Returns the
transformed argument list together with the log of constructor
invocations `(name, string argument)` in invocation order, or the
`ParsingError` message.  A node that is neither a literal nor an
`ast.Call` falls through both branches of the source loop: it is
skipped without being appended and without an error (mirrored by the
`ArgNode.other` equation). -/
def transformArgs (defn : String) (ctors : List (String × (String → Val))) :
    List ArgNode → Except String (List Val × List (String × String))
  | [] => Except.ok ([], [])
  | ArgNode.strLit s :: rest => do
      let r ← transformArgs defn ctors rest
      Except.ok (Val.str s :: r.1, r.2)
  | ArgNode.lit v :: rest => do
      let r ← transformArgs defn ctors rest
      Except.ok (v :: r.1, r.2)
  | ArgNode.call cn cargs :: rest =>
      match lookupCtor ctors cn with
      | some f =>
          match cargs with
          | [ArgNode.strLit s] => do
              let r ← transformArgs defn ctors rest
              Except.ok (f s :: r.1, (cn, s) :: r.2)
          | _ => Except.error ("Invalid syntax: " ++ defn)
      | Option.none => Except.error ("Invalid syntax: " ++ defn)
  | ArgNode.other :: _rest => transformArgs defn ctors _rest

/-- `_parse_component`: the definition string `defn` (used only in the
error message, as in `'Invalid syntax: ' + definition`), the callee
AST, and the argument nodes of the call; yields the dotted path, the
transformed arguments, and the constructor-invocation log. -/
def parseComponent (defn : String) (func : FuncNode) (args : List ArgNode)
    (ctors : List (String × (String → Val))) :
    Except String (String × List Val × List (String × String)) :=
  match transformArgs defn ctors args with
  | Except.error e => Except.error e
  | Except.ok r => Except.ok (componentAstToPath func, r.1, r.2)

/-! ## Grouping-structure extraction (`_extract_component_list`) -/

mutual
/-- A child of a grouping level: a string leaf, a mapping (`dict`), or
a child that is neither (on which `'.'.join` raises `TypeError`). -/
inductive CNode where
  | leaf (s : String) : CNode
  | badLeaf : CNode
  | group (d : CDict) : CNode

/-- A mapping from path-prefix keys to sub-levels, in iteration
order. -/
inductive CDict where
  | dnil : CDict
  | dcons (key : String) (sub : CList) (rest : CDict) : CDict

/-- A grouping level: an ordered sequence of children. -/
inductive CList where
  | lnil : CList
  | lcons (c : CNode) (rest : CList) : CList
end

/-- A `TypeError`-style failure (carries no descriptor name). -/
inductive ExtractErr where
  | typeError : ExtractErr
  deriving DecidableEq, Repr

mutual
/-- `_process_level`: walk the children of a level in order,
concatenating their results. -/
def processLevel : CList → List String → Except ExtractErr (List String)
  | CList.lnil, _ => Except.ok []
  | CList.lcons c rest, pre => do
      let h ← processNode c pre
      let t ← processLevel rest pre
      Except.ok (h ++ t)

/-- One child of a level: a string leaf joins the prefix chain; a
mapping recurses into each key; anything else makes `'.'.join` raise
`TypeError`. -/
def processNode : CNode → List String → Except ExtractErr (List String)
  | CNode.leaf s, pre => Except.ok [String.intercalate "." (pre ++ [s])]
  | CNode.badLeaf, _ => Except.error ExtractErr.typeError
  | CNode.group d, pre => processDict d pre

/-- The `for path_suffix, sub_level in child.items():` loop — every key
of the mapping is processed, in iteration order. -/
def processDict : CDict → List String → Except ExtractErr (List String)
  | CDict.dnil, _ => Except.ok []
  | CDict.dcons k sub rest, pre => do
      let h ← processLevel sub (pre ++ [k])
      let t ← processDict rest pre
      Except.ok (h ++ t)
end

/-- `_extract_component_list`: process the top level with an empty
prefix. -/
def extractComponentList (cfg : CList) : Except ExtractErr (List String) :=
  processLevel cfg []

/-- Concatenation of two mappings' entry sequences (a mapping with the
keys of `d₁` followed by the keys of `d₂`). -/
def dappend : CDict → CDict → CDict
  | CDict.dnil, d₂ => d₂
  | CDict.dcons k sub rest, d₂ => CDict.dcons k sub (dappend rest d₂)

/-! ## Load phase (`load_components_from_config` / `_prep_components`)

Embedded at the granularity of its observable events: writes of
component configuration defaults into the layered store, and
invocations of resolved callables.  Paths are abstract identifiers;
`hasDefaults` tells whether the type resolved from a path declares a
`configuration_defaults` mapping. -/

/-- An entry of the component list handed to `_prep_components`: a
descriptor string (with `callForm` true when it contains `(`), or a
bare `type` object. -/
inductive PrepEntry where
  | strDesc (path : Nat) (callForm : Bool) : PrepEntry
  | typeRef (path : Nat) : PrepEntry
  deriving DecidableEq, Repr

/-- An observable event of the load phase. -/
inductive LEvent where
  | configWrite (path : Nat) (layer : String) : LEvent
  | invoke (path : Nat) : LEvent
  deriving DecidableEq, Repr

/-- Events emitted by `_prep_components` for one entry: a string
descriptor is parsed and imported, and — if the resolved type declares
`configuration_defaults` — those defaults are written under the
`component_configs` layer; a bare `type` entry is wrapped as
`(component, tuple())` with no write. -/
def prepEvents (hasDefaults : Nat → Bool) : PrepEntry → List LEvent
  | PrepEntry.strDesc p _ =>
      if hasDefaults p then [LEvent.configWrite p "component_configs"] else []
  | PrepEntry.typeRef _ => []

/-- The component/argument tuple produced by `_prep_components` for one
entry, abstracted to (path, does the load loop invoke it): a call-form
descriptor becomes a `(callable, args)` pair (length 2, invoked), a
bare-path descriptor a 1-tuple (not invoked), and a bare `type` a
`(component, tuple())` pair (invoked). -/
def prepOut : PrepEntry → Nat × Bool
  | PrepEntry.strDesc p call => (p, call)
  | PrepEntry.typeRef p => (p, true)

/-- The `for component in component_list:` loop of `_prep_components`:
events in entry order, paired with the produced tuples in order. -/
def prepComponents (hasDefaults : Nat → Bool) :
    List PrepEntry → List LEvent × List (Nat × Bool)
  | [] => ([], [])
  | e :: rest =>
      let r := prepComponents hasDefaults rest
      (prepEvents hasDefaults e ++ r.1, prepOut e :: r.2)

/-- The `for component in component_list:` loop of
`load_components_from_config`: 1-tuples are appended as-is, pairs are
invoked (`component[0](*component[1])`). -/
def invokeLoop : List (Nat × Bool) → List LEvent
  | [] => []
  | (p, true) :: rest => LEvent.invoke p :: invokeLoop rest
  | (_, false) :: rest => invokeLoop rest

/-- `load_components_from_config`, as its event trace: all of
`_prep_components` runs first, then the invocation loop. -/
def loadComponentsFromConfig (hasDefaults : Nat → Bool)
    (entries : List PrepEntry) : List LEvent :=
  let r := prepComponents hasDefaults entries
  r.1 ++ invokeLoop r.2

/-- Number of entries of `l` in the equality class `k`. -/
def countEq (env : Env) (k : Nat) (l : List Nat) : Nat :=
  l.countP (fun x => (env x).eqKey == k)

/-- An environment in which no component overrides `__eq__`: equality
coincides with identity. -/
def defaultEq (env : Env) : Prop :=
  ∀ i, (env i).eqKey = i

/-- The setup pass, run with fuel `f` on worklist `wl` from state `st`,
reaches a step at which `a` is dequeued and its setup callback is
invoked (it is not in `done` at that moment and exposes `setup`), with
`pending` being the rest of the worklist — the entries already pending
behind `a` — at that moment.  The `step` constructor advances by
exactly the dequeue-and-process round `runSetup` performs on a
non-`None` entry, so derivations of this predicate are snapshots of
actual runs. -/
inductive InvokedAt (env : Env) (a : Nat) :
    Nat → List (Option Nat) → SState → List (Option Nat) → Prop where
  | here (f : Nat) (pending : List (Option Nat)) (st : SState)
      (hp : pyIn env a st.done = false) (hs : (env a).hasSetup = true) :
      InvokedAt env a (Nat.succ f) (some a :: pending) st pending
  | step (f : Nat) (c : Nat) (rest : List (Option Nat)) (st : SState)
      (pending : List (Option Nat))
      (h : InvokedAt env a f
        (rest ++ (stepOne env c { st with deqLog := st.deqLog ++ [some c] }).2)
        { (stepOne env c { st with deqLog := st.deqLog ++ [some c] }).1 with
          enqLog :=
            (stepOne env c { st with deqLog := st.deqLog ++ [some c] }).1.enqLog ++
              (stepOne env c { st with deqLog := st.deqLog ++ [some c] }).2 }
        pending) :
      InvokedAt env a (Nat.succ f) (some c :: rest) st pending

/-! ## Concrete environments and inputs used by the theorems below -/

/-- All nodes of the list are literal nodes (`ast.Str` or another
literal). -/
def allLit : List ArgNode → Bool
  | [] => true
  | ArgNode.strLit _ :: rest => allLit rest
  | ArgNode.lit _ :: rest => allLit rest
  | ArgNode.call _ _ :: _ => false
  | ArgNode.other :: _ => false

/-- The values of a list of literal nodes, in order. -/
def litVals : List ArgNode → List Val
  | [] => []
  | ArgNode.strLit s :: rest => Val.str s :: litVals rest
  | ArgNode.lit v :: rest => v :: litVals rest
  | ArgNode.call _ _ :: rest => litVals rest
  | ArgNode.other :: rest => litVals rest

def envC1 : Env := fun _ =>
  { eqKey := 0, iterElems := Option.none, hasDefaults := false,
    hasSetup := true, setupReturns := [] }

def envC4 : Env := fun _ =>
  { eqKey := 5, iterElems := Option.none, hasDefaults := false,
    hasSetup := true, setupReturns := [] }

def envC10 : Env := fun i =>
  { eqKey := i, iterElems := Option.none, hasDefaults := true,
    hasSetup := false, setupReturns := [] }

def envC7 : Env := fun i =>
  { eqKey := i, iterElems := Option.none, hasDefaults := false,
    hasSetup := true, setupReturns := [] }

def envC9 : Env := fun i =>
  { eqKey := i, iterElems := Option.none, hasDefaults := false,
    hasSetup := true,
    setupReturns := if i = 0 then [some 1, some 2] else [] }

def envC3 : Env := fun _ =>
  { eqKey := 0, iterElems := some [], hasDefaults := false,
    hasSetup := true, setupReturns := [] }

def cfgMulti : CList :=
  CList.lcons
    (CNode.group
      (CDict.dcons "a" (CList.lcons (CNode.leaf "x") CList.lnil)
        (CDict.dcons "b" (CList.lcons (CNode.leaf "y") CList.lnil) CDict.dnil)))
    CList.lnil

def ctorsW : List (String × (String → Val)) :=
  [("data", fun s => Val.str ("loaded:" ++ s))]

def hdW : Nat → Bool := fun _ => true

/-! ## Helper lemmas: `stepOne` and `runSetup` unfolding -/

theorem runSetup_nil (env : Env) (f : Nat) (st : SState) :
    runSetup env f [] st = (st, Outcome.ok) := by
  cases f <;> rfl

theorem runSetup_zero (env : Env) (e : Option Nat) (rest : List (Option Nat))
    (st : SState) :
    runSetup env 0 (e :: rest) st = (st, Outcome.fuelOut) := rfl

theorem runSetup_cons_none (env : Env) (f : Nat) (rest : List (Option Nat))
    (st : SState) :
    runSetup env (Nat.succ f) (Option.none :: rest) st =
      ({ st with deqLog := st.deqLog ++ [Option.none] }, Outcome.err noneMsg) := rfl

theorem runSetup_cons_some (env : Env) (f : Nat) (c : Nat)
    (rest : List (Option Nat)) (st : SState) :
    runSetup env (Nat.succ f) (some c :: rest) st =
      runSetup env f
        (rest ++ (stepOne env c { st with deqLog := st.deqLog ++ [some c] }).2)
        { (stepOne env c { st with deqLog := st.deqLog ++ [some c] }).1 with
          enqLog :=
            (stepOne env c { st with deqLog := st.deqLog ++ [some c] }).1.enqLog ++
              (stepOne env c { st with deqLog := st.deqLog ++ [some c] }).2 } := rfl

theorem stepOne_deqLog (env : Env) (c : Nat) (st : SState) :
    (stepOne env c st).1.deqLog = st.deqLog := by
  unfold stepOne
  by_cases h : pyIn env c st.done <;>
    cases hd : (env c).hasDefaults <;> cases hs : (env c).hasSetup <;>
    cases he : (env c).setupReturns.isEmpty <;> simp [h, hd, hs, he]

theorem stepOne_enqLog (env : Env) (c : Nat) (st : SState) :
    (stepOne env c st).1.enqLog = st.enqLog := by
  unfold stepOne
  by_cases h : pyIn env c st.done <;>
    cases hd : (env c).hasDefaults <;> cases hs : (env c).hasSetup <;>
    cases he : (env c).setupReturns.isEmpty <;> simp [h, hd, hs, he]

theorem stepOne_done (env : Env) (c : Nat) (st : SState) :
    (stepOne env c st).1.done =
      st.done ++
        (if pyIn env c st.done then []
         else if (env c).hasSetup then [c] else []) := by
  unfold stepOne
  by_cases h : pyIn env c st.done <;>
    cases hd : (env c).hasDefaults <;> cases hs : (env c).hasSetup <;>
    cases he : (env c).setupReturns.isEmpty <;> simp [h, hd, hs, he]

theorem stepOne_setupLog (env : Env) (c : Nat) (st : SState) :
    (stepOne env c st).1.setupLog =
      st.setupLog ++
        (if pyIn env c st.done then []
         else if (env c).hasSetup then [c] else []) := by
  unfold stepOne
  by_cases h : pyIn env c st.done <;>
    cases hd : (env c).hasDefaults <;> cases hs : (env c).hasSetup <;>
    cases he : (env c).setupReturns.isEmpty <;> simp [h, hd, hs, he]

theorem stepOne_configLog (env : Env) (c : Nat) (st : SState) :
    (stepOne env c st).1.configLog =
      st.configLog ++
        (if pyIn env c st.done then []
         else if (env c).hasDefaults then [c] else []) := by
  unfold stepOne
  by_cases h : pyIn env c st.done <;>
    cases hd : (env c).hasDefaults <;> cases hs : (env c).hasSetup <;>
    cases he : (env c).setupReturns.isEmpty <;> simp [h, hd, hs, he]

theorem stepOne_snd (env : Env) (c : Nat) (st : SState) :
    (stepOne env c st).2 =
      iterApp env c ++
        (if pyIn env c st.done then []
         else if (env c).hasSetup then (env c).setupReturns else []) := by
  unfold stepOne
  by_cases h : pyIn env c st.done <;>
    cases hd : (env c).hasDefaults <;> cases hs : (env c).hasSetup <;>
    cases he : (env c).setupReturns.isEmpty <;>
    simp_all [List.isEmpty_iff]

theorem stepOne_self (env : Env) (c : Nat) (st : SState) :
    (stepOne env c st).1.selfComponents =
      st.selfComponents ++ (stepOne env c st).2 := by
  unfold stepOne
  by_cases h : pyIn env c st.done <;>
    cases hd : (env c).hasDefaults <;> cases hs : (env c).hasSetup <;>
    cases he : (env c).setupReturns.isEmpty <;>
    simp_all [List.isEmpty_iff]

/-! ## Helper lemmas: `pyIn` -/

theorem pyIn_iff (env : Env) (c : Nat) (l : List Nat) :
    pyIn env c l = true ↔ ∃ e ∈ l, c = e ∨ (env c).eqKey = (env e).eqKey := by
  simp [pyIn, pyEq, List.any_eq_true]

theorem pyIn_append_left (env : Env) (c : Nat) (l t : List Nat)
    (h : pyIn env c l = true) : pyIn env c (l ++ t) = true := by
  rw [pyIn_iff] at h ⊢
  rcases h with ⟨e, he, hc⟩
  exact ⟨e, List.mem_append_left t he, hc⟩

theorem pyIn_defaultEq (env : Env) (c : Nat) (l : List Nat)
    (h : defaultEq env) : pyIn env c l = true ↔ c ∈ l := by
  rw [pyIn_iff]
  constructor
  · rintro ⟨e, he, hc | hk⟩
    · exact hc ▸ he
    · rw [h c, h e] at hk
      exact hk ▸ he
  · intro hc
    exact ⟨c, hc, Or.inl rfl⟩

/-! ## Helper lemmas: invariants of the setup pass -/

theorem runSetup_fifo (env : Env) :
    ∀ (f : Nat) (wl : List (Option Nat)) (st : SState),
      st.enqLog = st.deqLog ++ wl →
      ∃ rem, (runSetup env f wl st).1.enqLog = (runSetup env f wl st).1.deqLog ++ rem ∧
        ((runSetup env f wl st).2 = Outcome.ok → rem = []) := by
  intro f
  induction f with
  | zero =>
    intro wl st hq
    cases wl with
    | nil => exact ⟨[], by simpa [runSetup_nil] using hq, fun _ => rfl⟩
    | cons e rest =>
      refine ⟨e :: rest, by simpa [runSetup_zero] using hq, fun hoc => ?_⟩
      simp [runSetup_zero] at hoc
  | succ f ih =>
    intro wl st hq
    cases wl with
    | nil => exact ⟨[], by simpa [runSetup_nil] using hq, fun _ => rfl⟩
    | cons e rest =>
      cases e with
      | none =>
        refine ⟨rest, ?_, fun hoc => ?_⟩
        · simp [runSetup_cons_none, hq]
        · simp [runSetup_cons_none] at hoc
      | some c =>
        rw [runSetup_cons_some]
        apply ih
        simp [stepOne_enqLog, stepOne_deqLog, hq]

theorem runSetup_self_enq (env : Env) :
    ∀ (f : Nat) (wl : List (Option Nat)) (st : SState),
      st.selfComponents = st.enqLog →
      (runSetup env f wl st).1.selfComponents = (runSetup env f wl st).1.enqLog := by
  intro f
  induction f with
  | zero =>
    intro wl st hq
    cases wl with
    | nil => simpa [runSetup_nil] using hq
    | cons e rest => simpa [runSetup_zero] using hq
  | succ f ih =>
    intro wl st hq
    cases wl with
    | nil => simpa [runSetup_nil] using hq
    | cons e rest =>
      cases e with
      | none => simpa [runSetup_cons_none] using hq
      | some c =>
        rw [runSetup_cons_some]
        apply ih
        rw [stepOne_self, stepOne_enqLog]
        simp [hq]

theorem runSetup_done_setup (env : Env) :
    ∀ (f : Nat) (wl : List (Option Nat)) (st : SState),
      st.done = st.setupLog →
      (runSetup env f wl st).1.done = (runSetup env f wl st).1.setupLog := by
  intro f
  induction f with
  | zero =>
    intro wl st hq
    cases wl with
    | nil => simpa [runSetup_nil] using hq
    | cons e rest => simpa [runSetup_zero] using hq
  | succ f ih =>
    intro wl st hq
    cases wl with
    | nil => simpa [runSetup_nil] using hq
    | cons e rest =>
      cases e with
      | none => simpa [runSetup_cons_none] using hq
      | some c =>
        rw [runSetup_cons_some]
        apply ih
        rw [stepOne_done, stepOne_setupLog]
        simp [hq]

theorem runSetup_enq_mono (env : Env) :
    ∀ (f : Nat) (wl : List (Option Nat)) (st : SState),
      ∃ t, (runSetup env f wl st).1.enqLog = st.enqLog ++ t := by
  intro f
  induction f with
  | zero =>
    intro wl st
    cases wl with
    | nil => exact ⟨[], by simp [runSetup_nil]⟩
    | cons e rest => exact ⟨[], by simp [runSetup_zero]⟩
  | succ f ih =>
    intro wl st
    cases wl with
    | nil => exact ⟨[], by simp [runSetup_nil]⟩
    | cons e rest =>
      cases e with
      | none => exact ⟨[], by simp [runSetup_cons_none]⟩
      | some c =>
        rw [runSetup_cons_some]
        obtain ⟨t, ht⟩ := ih
          (rest ++ (stepOne env c { st with deqLog := st.deqLog ++ [some c] }).2)
          { (stepOne env c { st with deqLog := st.deqLog ++ [some c] }).1 with
            enqLog :=
              (stepOne env c { st with deqLog := st.deqLog ++ [some c] }).1.enqLog ++
                (stepOne env c { st with deqLog := st.deqLog ++ [some c] }).2 }
        refine ⟨(stepOne env c { st with deqLog := st.deqLog ++ [some c] }).2 ++ t, ?_⟩
        rw [ht]
        simp [stepOne_enqLog]

theorem countEq_append (env : Env) (k : Nat) (l₁ l₂ : List Nat) :
    countEq env k (l₁ ++ l₂) = countEq env k l₁ + countEq env k l₂ := by
  simp [countEq, List.countP_append]

theorem countEq_singleton_le (env : Env) (k c : Nat) : countEq env k [c] ≤ 1 := by
  simp only [countEq, List.countP_cons, List.countP_nil]
  split <;> omega

theorem countEq_singleton_ne (env : Env) (k c : Nat) (hk : ¬(env c).eqKey = k) :
    countEq env k [c] = 0 := by
  simp [countEq, List.countP_cons, hk]

theorem runSetup_countEq (env : Env) (k : Nat) :
    ∀ (f : Nat) (wl : List (Option Nat)) (st : SState),
      countEq env k st.setupLog ≤ 1 →
      (countEq env k st.setupLog = 1 → ∃ e ∈ st.done, (env e).eqKey = k) →
      countEq env k (runSetup env f wl st).1.setupLog ≤ 1 ∧
        (countEq env k (runSetup env f wl st).1.setupLog = 1 →
          ∃ e ∈ (runSetup env f wl st).1.done, (env e).eqKey = k) := by
  intro f
  induction f with
  | zero =>
    intro wl st h1 h2
    cases wl with
    | nil => rw [runSetup_nil]; exact ⟨h1, h2⟩
    | cons e rest => rw [runSetup_zero]; exact ⟨h1, h2⟩
  | succ f ih =>
    intro wl st h1 h2
    cases wl with
    | nil => rw [runSetup_nil]; exact ⟨h1, h2⟩
    | cons e rest =>
      cases e with
      | none => rw [runSetup_cons_none]; exact ⟨h1, h2⟩
      | some c =>
        rw [runSetup_cons_some]
        apply ih
        · -- countEq of updated setupLog ≤ 1
          rw [stepOne_setupLog]
          by_cases hp : pyIn env c st.done
          · simpa [hp, countEq_append] using h1
          · cases hs : (env c).hasSetup
            · simpa [hp, hs, countEq_append] using h1
            · by_cases hk : (env c).eqKey = k
              · have hz : countEq env k st.setupLog = 0 := by
                  rcases Nat.lt_or_ge (countEq env k st.setupLog) 1 with hlt | hge
                  · omega
                  · exfalso
                    have he : countEq env k st.setupLog = 1 := by omega
                    rcases h2 he with ⟨e, hem, hek⟩
                    have : pyIn env c st.done = true := by
                      rw [pyIn_iff]
                      exact ⟨e, hem, Or.inr (by rw [hk, hek])⟩
                    simp [this] at hp
                have hgoal : countEq env k (st.setupLog ++ [c]) ≤ 1 := by
                  rw [countEq_append, hz]
                  have := countEq_singleton_le env k c
                  omega
                simpa [hp, hs] using hgoal
              · have hgoal : countEq env k (st.setupLog ++ [c]) ≤ 1 := by
                  rw [countEq_append, countEq_singleton_ne env k c hk]
                  omega
                simpa [hp, hs] using hgoal
        · -- existence of a done witness
          rw [stepOne_setupLog, stepOne_done]
          intro hcnt
          by_cases hp : pyIn env c st.done
          · simp only [hp, if_true, List.append_nil] at hcnt ⊢
            rcases h2 hcnt with ⟨e, hem, hek⟩
            exact ⟨e, by simpa using hem, hek⟩
          · cases hs : (env c).hasSetup
            · simp only [hp, hs, if_false, Bool.false_eq_true, List.append_nil] at hcnt ⊢
              rcases h2 (by simpa using hcnt) with ⟨e, hem, hek⟩
              exact ⟨e, by simpa using hem, hek⟩
            · by_cases hk : (env c).eqKey = k
              · exact ⟨c, by simp [hp, hs], hk⟩
              · have hcnt' : countEq env k (st.setupLog ++ [c]) = 1 := by
                  simpa [hp, hs] using hcnt
                rw [countEq_append, countEq_singleton_ne env k c hk] at hcnt'
                have hs1 : countEq env k st.setupLog = 1 := by omega
                rcases h2 hs1 with ⟨e, hem, hek⟩
                exact ⟨e, by simp [hem, hp, hs], hek⟩

theorem runSetup_nosetup_config (env : Env) (c : Nat)
    (hde : defaultEq env) (hs : (env c).hasSetup = false)
    (hd : (env c).hasDefaults = true) :
    ∀ (f : Nat) (wl : List (Option Nat)) (st : SState),
      c ∉ st.done →
      List.count c st.configLog = List.count (some c) st.deqLog →
      c ∉ (runSetup env f wl st).1.done ∧
        List.count c (runSetup env f wl st).1.configLog =
          List.count (some c) (runSetup env f wl st).1.deqLog := by
  intro f
  induction f with
  | zero =>
    intro wl st h1 h2
    cases wl with
    | nil => rw [runSetup_nil]; exact ⟨h1, h2⟩
    | cons e rest => rw [runSetup_zero]; exact ⟨h1, h2⟩
  | succ f ih =>
    intro wl st h1 h2
    cases wl with
    | nil => rw [runSetup_nil]; exact ⟨h1, h2⟩
    | cons e rest =>
      cases e with
      | none =>
        rw [runSetup_cons_none]
        exact ⟨h1, by simpa [List.count_append] using h2⟩
      | some d =>
        rw [runSetup_cons_some]
        apply ih
        · -- c still not done
          rw [stepOne_done]
          by_cases hdc : d = c
          · subst hdc
            have hp : pyIn env d st.done = false := by
              rw [Bool.eq_false_iff]
              intro hcon
              exact h1 ((pyIn_defaultEq env d st.done hde).mp hcon)
            simp [hp, hs, h1]
          · intro hmem
            rcases List.mem_append.mp hmem with hmem | hmem
            · exact h1 hmem
            · have : c = d := by
                by_cases hp : pyIn env d st.done
                · cases hsd : (env d).hasSetup <;> simp [hp, hsd] at hmem
                · cases hsd : (env d).hasSetup <;> simp [hp, hsd] at hmem
                  exact hmem
              exact hdc this.symm
        · -- counts stay in sync
          rw [stepOne_configLog, stepOne_deqLog]
          by_cases hdc : d = c
          · subst hdc
            have hp : pyIn env d st.done = false := by
              rw [Bool.eq_false_iff]
              intro hcon
              exact h1 ((pyIn_defaultEq env d st.done hde).mp hcon)
            simp [hp, hd, List.count_append, h2]
          · by_cases hp : pyIn env d st.done <;>
              cases hdd : (env d).hasDefaults <;>
              simp [hp, hdd, List.count_append, h2, List.count_cons,
                Ne.symm hdc, hdc]

theorem runSetup_deq_setup (env : Env) :
    ∀ (f : Nat) (wl : List (Option Nat)) (st : SState),
      (∀ x : Nat, some x ∈ st.deqLog → (env x).hasSetup = true →
        pyIn env x st.done = true) →
      ∀ x : Nat, some x ∈ (runSetup env f wl st).1.deqLog →
        (env x).hasSetup = true →
        pyIn env x (runSetup env f wl st).1.done = true := by
  intro f
  induction f with
  | zero =>
    intro wl st hinv
    cases wl with
    | nil => rw [runSetup_nil]; exact hinv
    | cons e rest => rw [runSetup_zero]; exact hinv
  | succ f ih =>
    intro wl st hinv
    cases wl with
    | nil => rw [runSetup_nil]; exact hinv
    | cons e rest =>
      cases e with
      | none =>
        rw [runSetup_cons_none]
        intro x hx hsx
        simp only [List.mem_append, List.mem_singleton] at hx
        rcases hx with hx | hx
        · exact hinv x hx hsx
        · cases hx
      | some c =>
        rw [runSetup_cons_some]
        apply ih
        intro x hx hsx
        rw [stepOne_done]
        rw [stepOne_deqLog] at hx
        simp only [List.mem_append, List.mem_singleton] at hx
        rcases hx with hx | hx
        · exact pyIn_append_left env x st.done _ (hinv x hx hsx)
        · have hxc : x = c := by injection hx
          subst hxc
          by_cases hp : pyIn env x st.done
          · exact pyIn_append_left env x st.done _ hp
          · rw [pyIn_iff]
            exact ⟨x, by simp [hp, hsx], Or.inl rfl⟩

theorem runSetup_decomp (env : Env) (a : Nat) :
    ∀ (f : Nat) (wl : List (Option Nat)) (st : SState),
      st.enqLog = st.deqLog ++ wl →
      a ∈ (runSetup env f wl st).1.setupLog →
      a ∉ st.setupLog →
      ∃ l₁ l₂, (runSetup env f wl st).1.enqLog = l₁ ++ (env a).setupReturns ++ l₂ ∧
        some a ∈ l₁ := by
  intro f
  induction f with
  | zero =>
    intro wl st hq ha hna
    cases wl with
    | nil => rw [runSetup_nil] at ha; exact absurd ha hna
    | cons e rest => rw [runSetup_zero] at ha; exact absurd ha hna
  | succ f ih =>
    intro wl st hq ha hna
    cases wl with
    | nil => rw [runSetup_nil] at ha; exact absurd ha hna
    | cons e rest =>
      cases e with
      | none =>
        rw [runSetup_cons_none] at ha
        exact absurd ha hna
      | some c =>
        rw [runSetup_cons_some] at ha ⊢
        by_cases hstep : pyIn env c st.done = false ∧ (env c).hasSetup = true ∧ c = a
        · obtain ⟨hp, hsc, rfl⟩ := hstep
          obtain ⟨t, ht⟩ := runSetup_enq_mono env f
            (rest ++ (stepOne env c { st with deqLog := st.deqLog ++ [some c] }).2)
            { (stepOne env c { st with deqLog := st.deqLog ++ [some c] }).1 with
              enqLog :=
                (stepOne env c { st with deqLog := st.deqLog ++ [some c] }).1.enqLog ++
                  (stepOne env c { st with deqLog := st.deqLog ++ [some c] }).2 }
          refine ⟨st.enqLog ++ iterApp env c, t, ?_, ?_⟩
          · rw [ht]
            rw [show ({ (stepOne env c { st with deqLog := st.deqLog ++ [some c] }).1 with
              enqLog :=
                (stepOne env c { st with deqLog := st.deqLog ++ [some c] }).1.enqLog ++
                  (stepOne env c { st with deqLog := st.deqLog ++ [some c] }).2 } : SState).enqLog =
              (stepOne env c { st with deqLog := st.deqLog ++ [some c] }).1.enqLog ++
                (stepOne env c { st with deqLog := st.deqLog ++ [some c] }).2 from rfl]
            rw [stepOne_enqLog, stepOne_snd]
            simp [hp, hsc, List.append_assoc]
          · apply List.mem_append_left
            rw [hq]
            exact List.mem_append_right _ (List.mem_cons_self _ _)
        · refine ih _ _ ?_ ha ?_
          · rw [show ({ (stepOne env c { st with deqLog := st.deqLog ++ [some c] }).1 with
              enqLog :=
                (stepOne env c { st with deqLog := st.deqLog ++ [some c] }).1.enqLog ++
                  (stepOne env c { st with deqLog := st.deqLog ++ [some c] }).2 } : SState).enqLog =
              (stepOne env c { st with deqLog := st.deqLog ++ [some c] }).1.enqLog ++
                (stepOne env c { st with deqLog := st.deqLog ++ [some c] }).2 from rfl]
            rw [stepOne_enqLog, stepOne_deqLog]
            simp [hq]
          · rw [show ({ (stepOne env c { st with deqLog := st.deqLog ++ [some c] }).1 with
              enqLog :=
                (stepOne env c { st with deqLog := st.deqLog ++ [some c] }).1.enqLog ++
                  (stepOne env c { st with deqLog := st.deqLog ++ [some c] }).2 } : SState).setupLog =
              (stepOne env c { st with deqLog := st.deqLog ++ [some c] }).1.setupLog from rfl]
            rw [stepOne_setupLog]
            intro hmem
            rcases List.mem_append.mp hmem with hmem | hmem
            · exact hna hmem
            · by_cases hp : pyIn env c st.done
              · simp [hp] at hmem
              · cases hsc : (env c).hasSetup
                · simp [hp, hsc] at hmem
                · simp [hp, hsc] at hmem
                  exact hstep ⟨by simpa using hp, hsc, hmem.symm⟩

/-- Strengthened decomposition: if `a` is invoked at a step with
`pending` the rest of the worklist at that moment, then in the final
enqueue log `a`'s returned sub-components sit strictly after `some a`
and after every entry of `pending`. -/
theorem runSetup_decomp_pending (env : Env) (a : Nat) :
    ∀ (f : Nat) (wl : List (Option Nat)) (st : SState)
      (pending : List (Option Nat)),
      InvokedAt env a f wl st pending →
      st.enqLog = st.deqLog ++ wl →
      ∃ l₁ l₂, (runSetup env f wl st).1.enqLog = l₁ ++ (env a).setupReturns ++ l₂ ∧
        some a ∈ l₁ ∧ ∀ x ∈ pending, x ∈ l₁ := by
  intro f wl st pending hinv
  induction hinv with
  | here f pending st hp hs =>
    intro hq
    rw [runSetup_cons_some]
    obtain ⟨t, ht⟩ := runSetup_enq_mono env f
      (pending ++ (stepOne env a { st with deqLog := st.deqLog ++ [some a] }).2)
      { (stepOne env a { st with deqLog := st.deqLog ++ [some a] }).1 with
        enqLog :=
          (stepOne env a { st with deqLog := st.deqLog ++ [some a] }).1.enqLog ++
            (stepOne env a { st with deqLog := st.deqLog ++ [some a] }).2 }
    refine ⟨st.enqLog ++ iterApp env a, t, ?_, ?_, ?_⟩
    · rw [ht]
      rw [show ({ (stepOne env a { st with deqLog := st.deqLog ++ [some a] }).1 with
          enqLog :=
            (stepOne env a { st with deqLog := st.deqLog ++ [some a] }).1.enqLog ++
              (stepOne env a { st with deqLog := st.deqLog ++ [some a] }).2 } : SState).enqLog =
          (stepOne env a { st with deqLog := st.deqLog ++ [some a] }).1.enqLog ++
            (stepOne env a { st with deqLog := st.deqLog ++ [some a] }).2 from rfl]
      rw [stepOne_enqLog, stepOne_snd]
      simp [hp, hs, List.append_assoc]
    · apply List.mem_append_left
      rw [hq]
      exact List.mem_append_right _ (List.mem_cons_self _ _)
    · intro x hx
      apply List.mem_append_left
      rw [hq]
      exact List.mem_append_right _ (List.mem_cons_of_mem _ hx)
  | step f c rest st pending h ih =>
    intro hq
    rw [runSetup_cons_some]
    apply ih
    rw [show ({ (stepOne env c { st with deqLog := st.deqLog ++ [some c] }).1 with
        enqLog :=
          (stepOne env c { st with deqLog := st.deqLog ++ [some c] }).1.enqLog ++
            (stepOne env c { st with deqLog := st.deqLog ++ [some c] }).2 } : SState).enqLog =
        (stepOne env c { st with deqLog := st.deqLog ++ [some c] }).1.enqLog ++
          (stepOne env c { st with deqLog := st.deqLog ++ [some c] }).2 from rfl]
    rw [stepOne_enqLog, stepOne_deqLog]
    simp [hq]

theorem runSetup_pre_none (env : Env) :
    ∀ (pre : List Nat) (post : List (Option Nat)) (f : Nat) (st : SState),
      pre.length < f →
      runSetup env f (pre.map some ++ Option.none :: post) st =
        ({ pre.foldl (processOne env) st with
            deqLog := (pre.foldl (processOne env) st).deqLog ++ [Option.none] },
          Outcome.err noneMsg) := by
  intro pre
  induction pre with
  | nil =>
    intro post f st hf
    cases f with
    | zero => omega
    | succ f => simp [runSetup_cons_none]
  | cons c pre ih =>
    intro post f st hf
    cases f with
    | zero => simp at hf
    | succ f =>
      rw [List.map_cons, List.cons_append, runSetup_cons_some]
      have hshape : (List.map some pre ++ Option.none :: post) ++
          (stepOne env c { st with deqLog := st.deqLog ++ [some c] }).2 =
          List.map some pre ++ Option.none ::
            (post ++ (stepOne env c { st with deqLog := st.deqLog ++ [some c] }).2) := by
        simp [List.append_assoc]
      rw [hshape, List.foldl_cons]
      have hupd : ({ (stepOne env c { st with deqLog := st.deqLog ++ [some c] }).1 with
          enqLog := (stepOne env c { st with deqLog := st.deqLog ++ [some c] }).1.enqLog ++
            (stepOne env c { st with deqLog := st.deqLog ++ [some c] }).2 } : SState) =
          processOne env st c := rfl
      rw [hupd]
      refine ih _ f (processOne env st c) ?_
      have := Nat.lt_of_succ_lt_succ (by simpa using hf : pre.length + 1 < f + 1)
      exact this

theorem transformArgs_litPrefix (defn : String)
    (ctors : List (String × (String → Val))) :
    ∀ (pre args : List ArgNode), allLit pre = true →
      transformArgs defn ctors (pre ++ args) =
        (do
          let r ← transformArgs defn ctors args
          Except.ok (litVals pre ++ r.1, r.2)) := by
  intro pre
  induction pre with
  | nil =>
    intro args _
    cases h : transformArgs defn ctors args <;> simp [litVals, h, Bind.bind, Except.bind]
  | cons a pre ih =>
    intro args hall
    cases a with
    | strLit s =>
      rw [List.cons_append]
      rw [show transformArgs defn ctors (ArgNode.strLit s :: (pre ++ args)) = do
            let r ← transformArgs defn ctors (pre ++ args)
            Except.ok (Val.str s :: r.1, r.2) from rfl]
      rw [ih args (by simpa [allLit] using hall)]
      cases h : transformArgs defn ctors args <;> simp [litVals, h, Bind.bind, Except.bind]
    | lit v =>
      rw [List.cons_append]
      rw [show transformArgs defn ctors (ArgNode.lit v :: (pre ++ args)) = do
            let r ← transformArgs defn ctors (pre ++ args)
            Except.ok (v :: r.1, r.2) from rfl]
      rw [ih args (by simpa [allLit] using hall)]
      cases h : transformArgs defn ctors args <;> simp [litVals, h, Bind.bind, Except.bind]
    | call cn cargs => simp [allLit] at hall
    | other => simp [allLit] at hall

theorem prepComponents_outs (hd : Nat → Bool) :
    ∀ (entries : List PrepEntry),
      (prepComponents hd entries).2 = entries.map prepOut := by
  intro entries
  induction entries with
  | nil => rfl
  | cons e rest ih => simp [prepComponents, ih]

theorem prepComponents_events_write (hd : Nat → Bool) :
    ∀ (entries : List PrepEntry) (ev : LEvent),
      ev ∈ (prepComponents hd entries).1 →
      ∃ q, ev = LEvent.configWrite q "component_configs" := by
  intro entries
  induction entries with
  | nil => intro ev h; simp [prepComponents] at h
  | cons e rest ih =>
    intro ev h
    simp only [prepComponents, List.mem_append] at h
    rcases h with h | h
    · cases e with
      | strDesc p call =>
        by_cases hp : hd p
        · simp [prepEvents, hp] at h
          exact ⟨p, h⟩
        · simp [prepEvents, hp] at h
      | typeRef p => simp [prepEvents] at h
    · exact ih ev h

theorem prepComponents_write_mem (hd : Nat → Bool) :
    ∀ (entries : List PrepEntry) (p : Nat) (call : Bool),
      PrepEntry.strDesc p call ∈ entries → hd p = true →
      LEvent.configWrite p "component_configs" ∈ (prepComponents hd entries).1 := by
  intro entries
  induction entries with
  | nil => intro p call h _; simp at h
  | cons e rest ih =>
    intro p call h hdp
    simp only [List.mem_cons] at h
    simp only [prepComponents, List.mem_append]
    rcases h with rfl | h
    · exact Or.inl (by simp [prepEvents, hdp])
    · exact Or.inr (ih p call h hdp)

theorem invokeLoop_mem (p : Nat) :
    ∀ (outs : List (Nat × Bool)), (p, true) ∈ outs →
      LEvent.invoke p ∈ invokeLoop outs := by
  intro outs
  induction outs with
  | nil => intro h; simp at h
  | cons o rest ih =>
    intro h
    simp only [List.mem_cons] at h
    rcases h with rfl | h
    · simp [invokeLoop]
    · rcases o with ⟨q, b⟩
      cases b with
      | false => simpa [invokeLoop] using ih h
      | true => simp [invokeLoop, ih h]

theorem invokeLoop_count (p : Nat) :
    ∀ (outs : List (Nat × Bool)),
      List.count (LEvent.invoke p) (invokeLoop outs) =
        List.countP (fun o => o == (p, true)) outs := by
  intro outs
  induction outs with
  | nil => rfl
  | cons o rest ih =>
    rcases o with ⟨q, b⟩
    cases b with
    | false =>
      rw [List.countP_cons]
      simp [invokeLoop, ih]
    | true =>
      rw [List.countP_cons]
      by_cases hq : q = p
      · subst hq
        simp [invokeLoop, List.count_cons, ih]
      · simp [invokeLoop, List.count_cons, ih, hq, Prod.ext_iff]

theorem prep_events_count_invoke (hd : Nat → Bool) (p : Nat) :
    ∀ (entries : List PrepEntry),
      List.count (LEvent.invoke p) (prepComponents hd entries).1 = 0 := by
  intro entries
  rw [List.count_eq_zero]
  intro hmem
  rcases prepComponents_events_write hd entries _ hmem with ⟨q, hq⟩
  cases hq

theorem countEq_le_one_pairwise (env : Env) :
    ∀ (l : List Nat), (∀ k, countEq env k l ≤ 1) →
      l.Pairwise (fun a b => (env a).eqKey ≠ (env b).eqKey) := by
  intro l
  induction l with
  | nil => intro _; exact List.Pairwise.nil
  | cons x xs ih =>
    intro h
    constructor
    · intro y hy hxy
      have h1 := h ((env x).eqKey)
      rw [show countEq env ((env x).eqKey) (x :: xs) =
          countEq env ((env x).eqKey) xs +
            (if ((env x).eqKey == (env x).eqKey) = true then 1 else 0) from by
        simp [countEq, List.countP_cons]] at h1
      simp only [beq_self_eq_true, if_true] at h1
      have hz : countEq env ((env x).eqKey) xs = 0 := by omega
      have := List.countP_eq_zero.mp hz y hy
      simp [hxy] at this
    · apply ih
      intro k
      have := h k
      rw [show countEq env k (x :: xs) =
          countEq env k xs + (if ((env x).eqKey == k) = true then 1 else 0) from by
        simp [countEq, List.countP_cons]] at this
      omega

/-- **C1** (corrected).  Within a single setup pass, a component
instance's setup callback is invoked at most once: the `done` check
prevents a second invocation inside the same call of
`setup_components`. -/
theorem setup_at_most_once_per_pass (env : Env) (fuel : Nat)
    (mgr : List (Option Nat)) (c : Nat) :
    List.count c (setupComponents env fuel mgr).1.setupLog ≤ 1 := by
  have h := (runSetup_countEq env ((env c).eqKey) fuel mgr (initState mgr)
    (by simp [initState, countEq])
    (by intro hcon; simp [initState, countEq] at hcon)).1
  have h1 : countEq env ((env c).eqKey) (setupComponents env fuel mgr).1.setupLog ≤ 1 := h
  refine le_trans ?_ h1
  unfold countEq List.count
  apply List.countP_mono_left
  intro x _ hbe
  have : x = c := by simpa using hbe
  simp [this]

/-- **C1** counterexample.  The `done` list is local to each call of
`setup_components`, so running the setup pass twice over the same
manager invokes the component's setup twice in total, not once: the
claim's "exactly once in total" fails. -/
theorem setup_second_pass_reinvokes :
    List.count 0 (setupComponents envC1 4 [some 0]).1.setupLog +
        List.count 0
          (setupComponents envC1 4
            (setupComponents envC1 4 [some 0]).1.selfComponents).1.setupLog = 2 ∧
      (2 : Nat) ≠ 1 := by
  constructor
  · decide
  · decide

/-- **C4** (corrected).  The `done` check uses Python list membership
(`component not in done`), which is equality-based: within one setup
pass no two components of the same equality class are ever both set
up.  In particular, of two behaviorally equal but distinct instances
only the first dequeued one runs its setup. -/
theorem setupLog_pairwise_distinct_eqKey (env : Env) (fuel : Nat)
    (mgr : List (Option Nat)) :
    (setupComponents env fuel mgr).1.setupLog.Pairwise
      (fun a b => (env a).eqKey ≠ (env b).eqKey) := by
  apply countEq_le_one_pairwise
  intro k
  exact (runSetup_countEq env k fuel mgr (initState mgr)
    (by simp [initState, countEq])
    (by intro hcon; simp [initState, countEq] at hcon)).1

/-- **C4** counterexample.  Two distinct instances (identities 0 and 1)
that compare equal (`eqKey` 5 on both) both sit in the worklist with
setup callbacks; the claim says each is set up once, but only the
first dequeued instance is (the second is skipped by the
equality-based `done` check). -/
theorem equal_instances_only_first_setup :
    (setupComponents envC4 4 [some 0, some 1]).1.setupLog = [0] ∧
      1 ∉ (setupComponents envC4 4 [some 0, some 1]).1.setupLog := by
  constructor
  · decide
  · decide

/-- **C10** (confirmed).  A component without a setup attribute is
never appended to `done`, so — with default (identity) equality — every
dequeue of it re-merges its configuration defaults: the number of
`component_configs` writes sourced from it equals the number of its
occurrences in the (enqueue-ordered) worklist. -/
theorem no_setup_defaults_merged_per_occurrence (env : Env) (fuel : Nat)
    (mgr : List (Option Nat)) (c : Nat)
    (hde : defaultEq env) (hs : (env c).hasSetup = false)
    (hd : (env c).hasDefaults = true)
    (hok : (setupComponents env fuel mgr).2 = Outcome.ok) :
    c ∉ (setupComponents env fuel mgr).1.done ∧
      List.count c (setupComponents env fuel mgr).1.configLog =
        List.count (some c) (setupComponents env fuel mgr).1.enqLog := by
  have h := runSetup_nosetup_config env c hde hs hd fuel mgr (initState mgr)
    (by simp [initState]) (by simp [initState])
  obtain ⟨rem, hrem, hremok⟩ := runSetup_fifo env fuel mgr (initState mgr)
    (by simp [initState])
  have henqdeq : (setupComponents env fuel mgr).1.enqLog =
      (setupComponents env fuel mgr).1.deqLog := by
    have hrer : rem = [] := hremok hok
    have heq : (runSetup env fuel mgr (initState mgr)).1.enqLog =
        (runSetup env fuel mgr (initState mgr)).1.deqLog := by
      rw [hrem, hrer]
      simp
    exact heq
  rw [henqdeq]
  exact h

/-- **C10** witness: identity 0 has configuration defaults but no
setup; queued three times, its defaults are merged three times. -/
theorem no_setup_defaults_merged_per_occurrence_witness :
    defaultEq envC10 ∧ (envC10 0).hasSetup = false ∧
      (envC10 0).hasDefaults = true ∧
      (setupComponents envC10 5 [some 0, some 0, some 0]).2 = Outcome.ok ∧
      (0 ∉ (setupComponents envC10 5 [some 0, some 0, some 0]).1.done ∧
        List.count 0 (setupComponents envC10 5 [some 0, some 0, some 0]).1.configLog =
          List.count (some 0)
            (setupComponents envC10 5 [some 0, some 0, some 0]).1.enqLog) :=
  ⟨fun _ => rfl, rfl, rfl, by decide,
    no_setup_defaults_merged_per_occurrence envC10 5 _ 0 (fun _ => rfl) rfl rfl (by decide)⟩

/-- **C7** (confirmed).  A `None` worklist entry aborts the setup pass
with the `ComponentConfigError` exactly when it is dequeued: the final
state is the one obtained by processing precisely the entries before
the `None` (each through a full dequeue-and-process round), so nothing
after the `None` — including sub-components spawned by earlier
entries, which land behind it — is ever processed. -/
theorem none_entry_aborts_at_dequeue (env : Env) (pre : List Nat)
    (post : List (Option Nat)) (fuel : Nat) (hf : pre.length < fuel) :
    setupComponents env fuel (pre.map some ++ Option.none :: post) =
      ({ pre.foldl (processOne env)
            (initState (pre.map some ++ Option.none :: post)) with
          deqLog :=
            (pre.foldl (processOne env)
              (initState (pre.map some ++ Option.none :: post))).deqLog ++
              [Option.none] },
        Outcome.err noneMsg) :=
  runSetup_pre_none env pre post fuel (initState (pre.map some ++ Option.none :: post)) hf

/-- **C7** witness: the worklist `[0, None, 1]` errors after processing
only entry 0. -/
theorem none_entry_aborts_at_dequeue_witness :
    ([0] : List Nat).length < 3 ∧
      setupComponents envC7 3 (([0] : List Nat).map some ++ Option.none :: [some 1]) =
        ({ ([0] : List Nat).foldl (processOne envC7)
              (initState (([0] : List Nat).map some ++ Option.none :: [some 1])) with
            deqLog :=
              (([0] : List Nat).foldl (processOne envC7)
                (initState (([0] : List Nat).map some ++ Option.none :: [some 1]))).deqLog ++
                [Option.none] },
          Outcome.err noneMsg) :=
  ⟨by decide, none_entry_aborts_at_dequeue envC7 [0] [some 1] 3 (by decide)⟩

/-- **C9** (confirmed).  Suppose component `a` is dequeued and its
setup callback invoked at a step where `pending` is the rest of the
worklist (`InvokedAt`), it returned the sub-components `[b, c]` (both
exposing setup), and the pass completed normally under default
(identity) equality.  Then `b` and `c` are in the manager's component
list, both had their setup invoked, the dequeue order equals the
enqueue order (FIFO), and in that processing order `b, c` sit strictly
after `some a` AND after every entry that was pending when `a` ran:
all of `pending` occurs inside the segment `l₁` that precedes them. -/
theorem discovery_expansion (env : Env) (fuel : Nat) (mgr : List (Option Nat))
    (a b c : Nat) (pending : List (Option Nat))
    (hde : defaultEq env)
    (hok : (setupComponents env fuel mgr).2 = Outcome.ok)
    (hinv : InvokedAt env a fuel mgr (initState mgr) pending)
    (hrets : (env a).setupReturns = [some b, some c])
    (hbs : (env b).hasSetup = true) (hcs : (env c).hasSetup = true) :
    some b ∈ (setupComponents env fuel mgr).1.selfComponents ∧
      some c ∈ (setupComponents env fuel mgr).1.selfComponents ∧
      b ∈ (setupComponents env fuel mgr).1.setupLog ∧
      c ∈ (setupComponents env fuel mgr).1.setupLog ∧
      (setupComponents env fuel mgr).1.deqLog = (setupComponents env fuel mgr).1.enqLog ∧
      ∃ l₁ l₂, (setupComponents env fuel mgr).1.enqLog = l₁ ++ some b :: some c :: l₂ ∧
        some a ∈ l₁ ∧ ∀ x ∈ pending, x ∈ l₁ := by
  obtain ⟨l₁, l₂, henq, hal, hpend⟩ := runSetup_decomp_pending env a fuel mgr
    (initState mgr) pending hinv (by simp [initState])
  rw [hrets] at henq
  obtain ⟨rem, hrem, hremok⟩ := runSetup_fifo env fuel mgr (initState mgr)
    (by simp [initState])
  have hdeqenq : (runSetup env fuel mgr (initState mgr)).1.deqLog =
      (runSetup env fuel mgr (initState mgr)).1.enqLog := by
    rw [hrem, hremok hok]
    simp
  have hself : (runSetup env fuel mgr (initState mgr)).1.selfComponents =
      (runSetup env fuel mgr (initState mgr)).1.enqLog :=
    runSetup_self_enq env fuel mgr (initState mgr) (by simp [initState])
  have hdone : (runSetup env fuel mgr (initState mgr)).1.done =
      (runSetup env fuel mgr (initState mgr)).1.setupLog :=
    runSetup_done_setup env fuel mgr (initState mgr) (by simp [initState])
  have hbmem : some b ∈ (runSetup env fuel mgr (initState mgr)).1.enqLog := by
    rw [henq]; simp
  have hcmem : some c ∈ (runSetup env fuel mgr (initState mgr)).1.enqLog := by
    rw [henq]; simp
  have hdeq := runSetup_deq_setup env fuel mgr (initState mgr)
    (by intro x hx hsx; simp [initState] at hx)
  have hbsetup : b ∈ (runSetup env fuel mgr (initState mgr)).1.setupLog := by
    have hpy := hdeq b (by rw [hdeqenq]; exact hbmem) hbs
    rw [hdone] at hpy
    exact (pyIn_defaultEq env b _ hde).mp hpy
  have hcsetup : c ∈ (runSetup env fuel mgr (initState mgr)).1.setupLog := by
    have hpy := hdeq c (by rw [hdeqenq]; exact hcmem) hcs
    rw [hdone] at hpy
    exact (pyIn_defaultEq env c _ hde).mp hpy
  refine ⟨?_, ?_, hbsetup, hcsetup, hdeqenq, l₁, l₂, ?_, hal, hpend⟩
  · rw [show (setupComponents env fuel mgr).1.selfComponents =
      (runSetup env fuel mgr (initState mgr)).1.selfComponents from rfl, hself]
    exact hbmem
  · rw [show (setupComponents env fuel mgr).1.selfComponents =
      (runSetup env fuel mgr (initState mgr)).1.selfComponents from rfl, hself]
    exact hcmem
  · rw [show (setupComponents env fuel mgr).1.enqLog =
      (runSetup env fuel mgr (initState mgr)).1.enqLog from rfl, henq]
    simp

/-- **C9** witness: component 0 returns `[1, 2]` from its setup while
component 3 is still pending in the worklist behind it; after the pass
1 and 2 are registered and set up, and the pending sibling 3 is
processed before both of them. -/
theorem discovery_expansion_witness :
    defaultEq envC9 ∧ (setupComponents envC9 6 [some 0, some 3]).2 = Outcome.ok ∧
      InvokedAt envC9 0 6 [some 0, some 3] (initState [some 0, some 3]) [some 3] ∧
      (envC9 0).setupReturns = [some 1, some 2] ∧
      (envC9 1).hasSetup = true ∧ (envC9 2).hasSetup = true ∧
      (some 1 ∈ (setupComponents envC9 6 [some 0, some 3]).1.selfComponents ∧
        some 2 ∈ (setupComponents envC9 6 [some 0, some 3]).1.selfComponents ∧
        1 ∈ (setupComponents envC9 6 [some 0, some 3]).1.setupLog ∧
        2 ∈ (setupComponents envC9 6 [some 0, some 3]).1.setupLog ∧
        (setupComponents envC9 6 [some 0, some 3]).1.deqLog =
          (setupComponents envC9 6 [some 0, some 3]).1.enqLog ∧
        ∃ l₁ l₂, (setupComponents envC9 6 [some 0, some 3]).1.enqLog =
            l₁ ++ some 1 :: some 2 :: l₂ ∧ some 0 ∈ l₁ ∧
            ∀ x ∈ ([some 3] : List (Option Nat)), x ∈ l₁) :=
  ⟨fun _ => rfl, by decide,
    InvokedAt.here 5 [some 3] (initState [some 0, some 3]) (by decide) rfl,
    by decide, rfl, rfl,
    discovery_expansion envC9 6 [some 0, some 3] 0 1 2 [some 3] (fun _ => rfl)
      (by decide)
      (InvokedAt.here 5 [some 3] (initState [some 0, some 3]) (by decide) rfl)
      (by decide) rfl rfl⟩

/-- **C3** counterexample.  The source has no `continue` after the
`Iterable` splice: an iterable worklist entry that also exposes a
`setup` attribute falls through to the setup branch, and its setup IS
invoked — contradicting the claim that no setup callback runs on the
container itself. -/
theorem iterable_container_with_setup_is_setup :
    (envC3 0).iterElems = some [] ∧
      (setupComponents envC3 3 [some 0]).1.setupLog = [0] ∧
      (setupComponents envC3 3 [some 0]).1.setupLog ≠ [] := by
  refine ⟨rfl, by decide, by decide⟩

/-- **C3** (corrected).  Dequeuing an iterable entry splices its
elements onto the back of both the worklist and `self.components`, but
the entry then continues through normal processing: when it is not in
`done`, a `configuration_defaults` attribute IS merged and a `setup`
attribute IS invoked on the container itself; only a container exposing
neither attribute has no callback run. -/
theorem iterable_splice_falls_through (env : Env) (c : Nat) (st : SState)
    (elems : List (Option Nat)) (h : (env c).iterElems = some elems) :
    (∃ app, (stepOne env c st).2 = elems ++ app ∧
      (stepOne env c st).1.selfComponents = st.selfComponents ++ elems ++ app) ∧
    ((env c).hasSetup = false → (stepOne env c st).1.setupLog = st.setupLog) ∧
    ((env c).hasSetup = true → pyIn env c st.done = false →
      (stepOne env c st).1.setupLog = st.setupLog ++ [c]) ∧
    ((env c).hasDefaults = false → (stepOne env c st).1.configLog = st.configLog) ∧
    ((env c).hasDefaults = true → pyIn env c st.done = false →
      (stepOne env c st).1.configLog = st.configLog ++ [c]) := by
  have hiter : iterApp env c = elems := by simp [iterApp, h]
  refine ⟨⟨(if pyIn env c st.done then []
      else if (env c).hasSetup then (env c).setupReturns else []), ?_, ?_⟩,
    ?_, ?_, ?_, ?_⟩
  · rw [stepOne_snd, hiter]
  · rw [stepOne_self, stepOne_snd, hiter, List.append_assoc]
  · intro hs
    rw [stepOne_setupLog, hs]
    simp
  · intro hs hp
    rw [stepOne_setupLog, hs, hp]
    simp
  · intro hd
    rw [stepOne_configLog, hd]
    simp
  · intro hd hp
    rw [stepOne_configLog, hp, hd]
    simp

/-- **C3** witness: a concrete iterable entry with a setup attribute,
processed from a fresh state. -/
theorem iterable_splice_falls_through_witness :
    (envC3 0).iterElems = some [] ∧
      ((∃ app, (stepOne envC3 0 (initState [some 0])).2 = [] ++ app ∧
          (stepOne envC3 0 (initState [some 0])).1.selfComponents =
            (initState [some 0]).selfComponents ++ [] ++ app) ∧
        ((envC3 0).hasSetup = false →
          (stepOne envC3 0 (initState [some 0])).1.setupLog =
            (initState [some 0]).setupLog) ∧
        ((envC3 0).hasSetup = true → pyIn envC3 0 (initState [some 0]).done = false →
          (stepOne envC3 0 (initState [some 0])).1.setupLog =
            (initState [some 0]).setupLog ++ [0]) ∧
        ((envC3 0).hasDefaults = false →
          (stepOne envC3 0 (initState [some 0])).1.configLog =
            (initState [some 0]).configLog) ∧
        ((envC3 0).hasDefaults = true → pyIn envC3 0 (initState [some 0]).done = false →
          (stepOne envC3 0 (initState [some 0])).1.configLog =
            (initState [some 0]).configLog ++ [0])) :=
  ⟨rfl, iterable_splice_falls_through envC3 0 (initState [some 0]) [] rfl⟩

theorem processDict_dappend : ∀ (d₁ d₂ : CDict) (pre : List String),
    processDict (dappend d₁ d₂) pre =
      (do
        let x ← processDict d₁ pre
        let y ← processDict d₂ pre
        Except.ok (x ++ y))
  | CDict.dnil, d₂, pre => by
    cases h₂ : processDict d₂ pre <;>
      simp [dappend, processDict, h₂, Bind.bind, Except.bind]
  | CDict.dcons k sub rest, d₂, pre => by
    have ih := processDict_dappend rest d₂ pre
    cases hs : processLevel sub (pre ++ [k]) with
    | error e =>
      simp [dappend, processDict, hs, Bind.bind, Except.bind]
    | ok h =>
      cases hr : processDict rest pre with
      | error e =>
        simp [dappend, processDict, hs, hr, ih, Bind.bind, Except.bind]
      | ok t =>
        cases h₂ : processDict d₂ pre <;>
          simp [dappend, processDict, hs, hr, h₂, ih, Bind.bind, Except.bind,
            List.append_assoc]

/-- **C5** (corrected).  A mapping with several keys is NOT a
configuration error: the extractor iterates over all its keys, so it
behaves exactly like the corresponding sequence of single-key mappings
(keys flattened in iteration order).  A leaf that is neither a string
nor a mapping does abort extraction, but with a bare `TypeError` from
`'.'.join`, not a configuration error naming the entry. -/
theorem multikey_split_and_badLeaf_error :
    (∀ (d₁ d₂ : CDict) (pre : List String),
        processDict (dappend d₁ d₂) pre =
          (do
            let x ← processDict d₁ pre
            let y ← processDict d₂ pre
            Except.ok (x ++ y))) ∧
      (∀ (rest : CList) (pre : List String),
          processLevel (CList.lcons CNode.badLeaf rest) pre =
            Except.error ExtractErr.typeError) :=
  ⟨processDict_dappend, fun _ _ => rfl⟩

/-- **C5** counterexample.  The input `[{"a": ["x"], "b": ["y"]}]`
contains a two-key mapping; the claim demands a configuration error,
but extraction succeeds and silently flattens both keys. -/
theorem multikey_mapping_flattened_no_error :
    extractComponentList cfgMulti = Except.ok ["a.x", "b.y"] ∧
      extractComponentList cfgMulti ≠ Except.error ExtractErr.typeError :=
  ⟨rfl, by
    rw [show extractComponentList cfgMulti = Except.ok ["a.x", "b.y"] from rfl]
    simp⟩

/-- **C2** (code bug).  `_parse_component` on `pkg.Thing(foo)`: the
argument `foo` is a bare name — neither a literal nor an `ast.Call` —
so it matches no branch of the argument loop and is silently dropped:
parsing returns the path with an EMPTY argument list instead of
raising the ParsingError promised by the claim and by the function's
own docstring. -/
theorem parse_drops_nonliteral_noncall_arg :
    parseComponent "pkg.Thing(foo)" (FuncNode.attr (FuncNode.name "pkg") "Thing")
      [ArgNode.other] [] = Except.ok ("pkg.Thing", [], []) := rfl

/-- **C8** (confirmed).  For a descriptor whose (last) argument is a
one-level nested call with exactly one string-literal argument,
preceded by any literal arguments: if the constructor name is not in
the registry, parsing fails with the ParsingError naming the
descriptor; if it is registered, the constructor is invoked exactly
once with the string, and its return value becomes the resolved
argument. -/
theorem nested_ctor_resolution (defn : String) (func : FuncNode) (cn s : String)
    (ctors : List (String × (String → Val))) (pre : List ArgNode)
    (hpre : allLit pre = true) :
    parseComponent defn func (pre ++ [ArgNode.call cn [ArgNode.strLit s]]) ctors =
      match lookupCtor ctors cn with
      | Option.none => Except.error ("Invalid syntax: " ++ defn)
      | some f =>
          Except.ok (componentAstToPath func, litVals pre ++ [f s], [(cn, s)]) := by
  cases hl : lookupCtor ctors cn with
  | none =>
    simp [parseComponent, transformArgs_litPrefix defn ctors pre _ hpre,
      transformArgs, hl, Bind.bind, Except.bind]
  | some f =>
    simp [parseComponent, transformArgs_litPrefix defn ctors pre _ hpre,
      transformArgs, hl, Bind.bind, Except.bind]

/-- **C8** witness: with the registry binding `data`, the descriptor
`pkg.Thing(1, data("f"))` resolves; with the relevant name looked up,
the constructor runs once on `"f"`. -/
theorem nested_ctor_resolution_witness :
    allLit [ArgNode.lit (Val.int 1)] = true ∧
      parseComponent "pkg.Thing(1, data(\"f\"))"
          (FuncNode.attr (FuncNode.name "pkg") "Thing")
          [ArgNode.lit (Val.int 1), ArgNode.call "data" [ArgNode.strLit "f"]]
          ctorsW =
        Except.ok ("pkg.Thing", [Val.int 1, Val.str "loaded:f"], [("data", "f")]) :=
  ⟨rfl, by
    have h := nested_ctor_resolution "pkg.Thing(1, data(\"f\"))"
      (FuncNode.attr (FuncNode.name "pkg") "Thing") "data" "f" ctorsW
      [ArgNode.lit (Val.int 1)] rfl
    simpa [ctorsW, lookupCtor, litVals, componentAstToPath] using h⟩

/-- **C6** (confirmed).  For a call-form descriptor whose resolved type
declares configuration defaults, the `component_configs` write happens
strictly before the callable is invoked (all of `_prep_components`
runs before the invocation loop), and the invocation is one-shot: the
number of invoke events for a path equals the number of entries that
produce an invokable reference with that path. -/
theorem defaults_written_before_invocation (hd : Nat → Bool)
    (entries : List PrepEntry) (p : Nat)
    (hmem : PrepEntry.strDesc p true ∈ entries) (hdp : hd p = true) :
    (∃ l₁ l₂ l₃, loadComponentsFromConfig hd entries =
        l₁ ++ LEvent.configWrite p "component_configs" ::
          (l₂ ++ LEvent.invoke p :: l₃)) ∧
      List.count (LEvent.invoke p) (loadComponentsFromConfig hd entries) =
        List.countP (fun e => prepOut e == (p, true)) entries := by
  constructor
  · obtain ⟨s, t, h1⟩ :=
      List.append_of_mem (prepComponents_write_mem hd entries p true hmem hdp)
    have houts : (p, true) ∈ (prepComponents hd entries).2 := by
      rw [prepComponents_outs]
      exact List.mem_map.mpr ⟨PrepEntry.strDesc p true, hmem, rfl⟩
    obtain ⟨u, v, h2⟩ := List.append_of_mem (invokeLoop_mem p _ houts)
    refine ⟨s, t ++ u, v, ?_⟩
    rw [loadComponentsFromConfig]
    rw [h1, h2]
    simp [List.append_assoc]
  · rw [loadComponentsFromConfig]
    rw [List.count_append]
    rw [prep_events_count_invoke, invokeLoop_count, prepComponents_outs,
      List.countP_map]
    rw [Nat.zero_add]
    rfl

/-- **C6** witness: a single call-form descriptor with defaults
produces the write followed by the one invocation. -/
theorem defaults_written_before_invocation_witness :
    PrepEntry.strDesc 7 true ∈ [PrepEntry.strDesc 7 true] ∧ hdW 7 = true ∧
      ((∃ l₁ l₂ l₃, loadComponentsFromConfig hdW [PrepEntry.strDesc 7 true] =
          l₁ ++ LEvent.configWrite 7 "component_configs" ::
            (l₂ ++ LEvent.invoke 7 :: l₃)) ∧
        List.count (LEvent.invoke 7)
            (loadComponentsFromConfig hdW [PrepEntry.strDesc 7 true]) =
          List.countP (fun e => prepOut e == (7, true)) [PrepEntry.strDesc 7 true]) :=
  ⟨by decide, rfl,
    defaults_written_before_invocation hdW [PrepEntry.strDesc 7 true] 7 (by decide) rfl⟩

end Vivarium
